import Mathlib

/-!
Verification of the Ditto TalkingHead API façade (`runpod_handler.py`).

The development shallowly embeds the request handlers of the service: the
pathlib-based file-extension validator, the Output Store listing and
download routes, the inference invoker, the multipart `/inference` endpoint
with its workspace-cleanup discipline, and the batch `handler` entry point.
Filesystem contents are modelled as explicit values (the Output Store as a
list of regular files with directory-entry names, sizes and creation
times), and the per-request environment (drawn random hex names, upload
save outcomes, subprocess exit status) as an explicit `World` record.
-/

namespace Ditto

/-- Split a character list on the slash character, keeping empty parts,
mirroring how a POSIX path string decomposes into raw components. -/
def splitOnSlash : List Char → List (List Char)
  | [] => [[]]
  | c :: cs =>
    if c = '/' then [] :: splitOnSlash cs
    else
      match splitOnSlash cs with
      | [] => [[c]]
      | p :: ps => (c :: p) :: ps

/-- Whether a raw path part survives pathlib parsing: empty parts and
lone-dot parts are dropped (Python: Path("a//./b").parts == ("a", "b")). -/
def keepPart (p : List Char) : Bool :=
  !(p = [] || p = ['.'])

/-- The raw components of a pathlib PurePosixPath after parsing. -/
def pyParts (cs : List Char) : List (List Char) :=
  (splitOnSlash cs).filter keepPart

/-- Embedding of Path(s).name: the final retained component (empty when
none remains). -/
def pyName (cs : List Char) : List Char :=
  (pyParts cs).getLast?.getD []

/-- Helper for the pathlib suffix computation, working on the reversed
name: the suffix is nonempty exactly when the name has a dot that is
neither its first nor its last character, and consists of the last dot and
what follows it. -/
def pySuffixRev (rev : List Char) : List Char :=
  let a := rev.takeWhile (fun c => !(c = '.'))
  match rev.dropWhile (fun c => !(c = '.')) with
  | '.' :: b => if a = [] || b = [] then [] else '.' :: a.reverse
  | _ => []

/-- Embedding of Path(filename).suffix: the extension of the final path
component, including its leading dot; empty for dotless names, names
ending in a dot, and hidden-file names such as ".png". -/
def pathSuffix (filename : String) : String :=
  String.mk (pySuffixRev (pyName filename.data).reverse)

/-- Lowercase a string character by character (Python str.lower restricted
to the behaviour exercised by file extensions). -/
def lowerString (s : String) : String :=
  String.mk (s.data.map Char.toLower)

/-- Source constant ALLOWED_IMAGE_EXTENSIONS (a Python set, modelled as a
list; membership is all that is ever used of it). -/
def ALLOWED_IMAGE_EXTENSIONS : List String :=
  [".png", ".jpg", ".jpeg", ".bmp", ".tiff", ".webp"]

/-- Source constant ALLOWED_AUDIO_EXTENSIONS. -/
def ALLOWED_AUDIO_EXTENSIONS : List String :=
  [".wav", ".mp3", ".m4a", ".flac", ".ogg"]

/-- Embedding of validate_file_type(filename, allowed_extensions), which
returns Path(filename).suffix.lower() in allowed_extensions. -/
def validate_file_type (filename : String) (allowed_extensions : List String) : Bool :=
  allowed_extensions.contains (lowerString (pathSuffix filename))

/-- Python str.endswith(t) on s. -/
def strEndsWith (s t : String) : Bool :=
  t.data.isSuffixOf s.data

/-- Python str.startswith(t) on s. -/
def strStartsWith (s t : String) : Bool :=
  t.data.isPrefixOf s.data

/-- Whether a string contains a path separator. -/
def containsSlash (s : String) : Bool :=
  s.data.contains '/'

/-- Embedding of os.path.join(a, b) for POSIX paths: an absolute second
argument discards the first; otherwise the parts are joined with a single
slash. -/
def ospath_join (a b : String) : String :=
  if strStartsWith b "/" then b
  else if strEndsWith a "/" then a ++ b
  else a ++ "/" ++ b

/-- Source constant OUTPUT_DIR. -/
def OUTPUT_DIR : String := "/workspace/outputs"

/-- A regular file resident in the Output Store directory: its
directory-entry name, its byte size and its creation time. The creation
time is a natural number; the code renders it as an ISO timestamp string
whose lexicographic ordering agrees with the numeric one. -/
structure StoredFile where
  name : String
  size : Nat
  ctime : Nat
deriving DecidableEq

/-- The Output Store directory contents: the regular files it holds. -/
abbrev Store := List StoredFile

/-- Whether the joined path OUTPUT_DIR/filename names an existing file of
the store (os.path.exists on the joined path, for single-component
filenames). -/
def joinedPathExists (store : Store) (filename : String) : Bool :=
  store.any (fun f => f.name = filename)

/-- Membership test of the glob pattern `*.mp4` on one directory-entry
name: glob hides names starting with a dot, and the pattern requires the
`.mp4` suffix case-sensitively. -/
def globMatchMp4 (name : String) : Bool :=
  !(strStartsWith name ".") && strEndsWith name ".mp4"

/-- One element of the `/files` response. -/
structure FileEntry where
  filename : String
  size : Nat
  created : Nat
  download_url : String
deriving DecidableEq

/-- Build the `/files` entry for one stored file. -/
def mkEntry (f : StoredFile) : FileEntry :=
  ⟨f.name, f.size, f.ctime, "/download/" ++ f.name⟩

/-- The sort relation used by the listing (newest first, via sort with a
creation key and reverse order). -/
def createdGE (a b : FileEntry) : Prop := b.created ≤ a.created

instance : DecidableRel createdGE := fun a b => Nat.decLe b.created a.created

instance : IsTotal FileEntry createdGE := ⟨fun a b => Nat.le_total b.created a.created⟩

instance : IsTrans FileEntry createdGE := ⟨fun _ _ _ h1 h2 => Nat.le_trans h2 h1⟩

/-- Embedding of list_files (route GET `/files`): a missing OUTPUT_DIR is
modelled as `none` and yields an empty listing; otherwise the
`*.mp4`-matching files are listed with name, size, creation time and
download reference, sorted newest first. -/
def list_files (fs : Option Store) : List FileEntry :=
  match fs with
  | none => []
  | some store =>
    ((store.filter (fun f => globMatchMp4 f.name)).map mkEntry).insertionSort createdGE

/-- Outcome of download_file (route GET `/download/{filename}`). -/
inductive DownloadResult where
  | notFound
  | invalidType
  | file (path : String) (mediaType : String) (filename : String)
deriving DecidableEq

/-- Embedding of download_file(filename): joins the filename under
OUTPUT_DIR, returns 404 when the joined path does not exist, 400 when the
filename does not end in `.mp4`, and otherwise serves the file as
video/mp4. -/
def download_file (store : Store) (filename : String) : DownloadResult :=
  let file_path := ospath_join OUTPUT_DIR filename
  if !(joinedPathExists store filename) then .notFound
  else if !(strEndsWith filename ".mp4") then .invalidType
  else .file file_path "video/mp4" filename

/-- A raised HTTPException: status code and detail message. -/
structure HttpError where
  status : Nat
  detail : String
deriving DecidableEq

/-- Environment behaviour consumed by one request: the random hex values
drawn from uuid4, whether each upload save succeeds, and the external
inference process exit status together with its reported error. -/
structure World where
  outHex : String
  imgHex : String
  audioHex : String
  downloadHex : String
  saveImageOk : Bool
  saveImageErr : String
  saveAudioOk : Bool
  saveAudioErr : String
  exitCode : Nat
  procErr : String

/-- Embedding of run_inference(source_img, audio_file): builds the output
path OUTPUT_DIR/<hex>.mp4, runs the external command, raises a 500
HTTPException carrying the process error when the exit status is non-zero,
and returns the output path otherwise. The subprocess outcome is the
exitCode/procErr pair of the World. -/
def run_inference (w : World) : Except HttpError String :=
  let output_path := ospath_join OUTPUT_DIR (w.outHex ++ ".mp4")
  if w.exitCode = 0 then .ok output_path
  else .error ⟨500, "Inference failed: " ++ w.procErr⟩

/-- An HTTP response of the `/inference` endpoint. -/
inductive InferenceResponse where
  | badRequest (detail : String)
  | serverError (detail : String)
  | fileResponse (path : String) (mediaType : String) (filename : String)
deriving DecidableEq

/-- Observable outcome of one `/inference` request: the response, whether
a Temporary Workspace was created, whether the inference subprocess was
invoked, and whether the workspace directory still exists on return. -/
structure InferenceOutcome where
  response : InferenceResponse
  tempDirCreated : Bool
  subprocessInvoked : Bool
  tempDirExistsAfter : Bool
deriving DecidableEq

/-- Result of the guarded body of the `/inference` handler: a normal
return or a raised exception message. -/
inductive BodyResult where
  | ok (resp : InferenceResponse)
  | exn (msg : String)
deriving DecidableEq

/-- Embedding of shutil.rmtree(temp_dir) acting on the workspace-exists
flag. -/
def rmtree (_tempExists : Bool) : Bool := false

/-- The guarded body of the `/inference` handler: save the two uploads
(each may raise), run inference (may raise an HTTPException, whose string
rendering is the status, a colon and the detail), and return the generated
video. The body never touches the workspace-exists flag. Also reports
whether the subprocess was invoked. -/
def inferenceBody (w : World) : BodyResult × Bool :=
  if !w.saveImageOk then (.exn w.saveImageErr, false)
  else if !w.saveAudioOk then (.exn w.saveAudioErr, false)
  else
    match run_inference w with
    | .error e => (.exn (toString e.status ++ ": " ++ e.detail), true)
    | .ok result_path =>
      (.ok (.fileResponse result_path "video/mp4"
        ("talking_head_" ++ w.downloadHex ++ ".mp4")), true)

/-- Embedding of the `/inference` endpoint: validates both filenames (400
naming the allowed set, before any workspace exists), creates the
Temporary Workspace, runs the guarded body, converts any exception into a
500 after removing the workspace (the handler for caught exceptions), and
removes the workspace again if it still exists (the unconditional cleanup
clause) before returning. -/
def inference (imgName audioName : String) (w : World) : InferenceOutcome :=
  if !validate_file_type imgName ALLOWED_IMAGE_EXTENSIONS then
    ⟨.badRequest ("Invalid image format. Allowed: "
      ++ String.intercalate ", " ALLOWED_IMAGE_EXTENSIONS), false, false, false⟩
  else if !validate_file_type audioName ALLOWED_AUDIO_EXTENSIONS then
    ⟨.badRequest ("Invalid audio format. Allowed: "
      ++ String.intercalate ", " ALLOWED_AUDIO_EXTENSIONS), false, false, false⟩
  else
    let tempExists0 := true
    let (bodyRes, invoked) := inferenceBody w
    let (resp, tempExists1) :=
      match bodyRes with
      | .ok r => (r, tempExists0)
      | .exn m =>
        let afterExcept := if tempExists0 then rmtree tempExists0 else tempExists0
        (.serverError ("Processing failed: " ++ m), afterExcept)
    let tempExists2 := if tempExists1 then rmtree tempExists1 else tempExists1
    ⟨resp, true, invoked, tempExists2⟩

/-- The input mapping of a RunPod event: optional source_path and
audio_path string fields. -/
structure EventInput where
  source_path : Option String
  audio_path : Option String
deriving DecidableEq

/-- A RunPod event value as seen by the batch handler; the input key may
be absent. -/
structure Event where
  inputField : Option EventInput
deriving DecidableEq

/-- Python falsiness test for an optional string field: true when the
field is absent (None) or the empty string. -/
def falsyStr (v : Option String) : Bool :=
  match v with
  | none => true
  | some s => s = ""

/-- A value returned by the batch handler: exactly one of an output-path
result or an error result. -/
inductive HandlerResult where
  | output (path : String)
  | error (msg : String)
deriving DecidableEq

/-- Embedding of handler(event), paired with whether the inference
subprocess was invoked. A missing input key raises KeyError inside the
guarded region, caught and rendered as its Python string form; missing or
empty path fields return the fixed error message; any inference failure is
caught and rendered with its status and detail. -/
def handler (e : Event) (w : World) : HandlerResult × Bool :=
  match e.inputField with
  | none => (.error "\x27input\x27", false)
  | some inp =>
    if falsyStr inp.source_path || falsyStr inp.audio_path then
      (.error "Missing source_path or audio_path in input", false)
    else
      match run_inference w with
      | .ok result => (.output result, true)
      | .error ex => (.error (toString ex.status ++ ": " ++ ex.detail), true)

/-- The retained components of a POSIX path string: split on slashes,
dropping empty and lone-dot parts. -/
def componentsOf (s : String) : List (List Char) :=
  (splitOnSlash s.data).filter keepPart

/-- One step of dot-dot resolution: a dot-dot component discards the
preceding component, any other component is appended. -/
def resolveStep (acc : List (List Char)) (p : List Char) : List (List Char) :=
  if p = ['.', '.'] then acc.dropLast else acc ++ [p]

/-- Resolve dot-dot components the way the filesystem does for an absolute
path: each one discards the preceding component. -/
def normalizeComponents (parts : List (List Char)) : List (List Char) :=
  parts.foldl resolveStep []

/-- The fully resolved component list of an absolute path string. -/
def resolvePath (s : String) : List (List Char) :=
  normalizeComponents (componentsOf s)

/-- The resolved components of the Output Store root. -/
def outputRootComponents : List (List Char) := resolvePath OUTPUT_DIR

/-- Appending a `.mp4` suffix always yields a string ending in `.mp4`. -/
theorem strEndsWith_append_mp4 (s : String) : strEndsWith (s ++ ".mp4") ".mp4" = true := by
  simp [strEndsWith]

/-- A character rejected by the contains test of a list is not a member of
that list. -/
theorem char_not_mem_of_contains_false {c : Char} {l : List Char}
    (h : l.contains c = false) : c ∉ l := by
  intro hm
  have hc : l.contains c = true :=
    List.contains_iff_exists_mem_beq.mpr ⟨c, hm, by simp⟩
  rw [h] at hc
  exact Bool.false_ne_true hc

/-- A slash-free string has no slash among its characters. -/
theorem slash_not_mem_of_containsSlash_false {s : String} (h : containsSlash s = false) :
    '/' ∉ s.data :=
  char_not_mem_of_contains_false h

/-- A string whose characters exclude the slash does not start with one. -/
theorem strStartsWith_slash_eq_false {s : String} (h : '/' ∉ s.data) :
    strStartsWith s "/" = false := by
  rw [strStartsWith]
  cases hs : s.data with
  | nil => decide
  | cons c cs =>
    have hc : c ≠ '/' := by
      intro hceq
      exact h (hs ▸ (hceq ▸ List.mem_cons_self c cs))
    show List.isPrefixOf ['/'] (c :: cs) = false
    simp [List.isPrefixOf]
    exact fun heq => absurd heq.symm hc

/-- A slash-free string followed by `.mp4` does not start with a slash. -/
theorem strStartsWith_slash_false {s : String} (h : containsSlash s = false) :
    strStartsWith (s ++ ".mp4") "/" = false := by
  apply strStartsWith_slash_eq_false
  rw [String.data_append]
  intro hm
  rcases List.mem_append.mp hm with h1 | h2
  · exact slash_not_mem_of_containsSlash_false h h1
  · revert h2
    decide

/-- Splitting a string that opens with a slash peels off one empty part. -/
theorem splitOnSlash_slash_cons (cs : List Char) :
    splitOnSlash ('/' :: cs) = [] :: splitOnSlash cs := by
  simp [splitOnSlash]

/-- A slash-free character list splits into itself alone. -/
theorem splitOnSlash_no_slash : ∀ {cs : List Char}, '/' ∉ cs → splitOnSlash cs = [cs]
  | [], _ => rfl
  | c :: cs, h => by
    have hc : ¬ c = '/' := fun hh => h (hh ▸ List.mem_cons_self c cs)
    have ih : splitOnSlash cs = [cs] :=
      splitOnSlash_no_slash (fun hm => h (List.mem_cons_of_mem c hm))
    simp only [splitOnSlash, if_neg hc, ih]

/-- Splitting past a slash-free prefix peels the prefix off as one part. -/
theorem splitOnSlash_append_slash :
    ∀ {xs : List Char} (ys : List Char), '/' ∉ xs →
      splitOnSlash (xs ++ '/' :: ys) = xs :: splitOnSlash ys
  | [], ys, _ => by simp [splitOnSlash]
  | x :: xs, ys, h => by
    have hx : ¬ x = '/' := fun hh => h (hh ▸ List.mem_cons_self x xs)
    have ih : splitOnSlash (xs ++ '/' :: ys) = xs :: splitOnSlash ys :=
      splitOnSlash_append_slash ys (fun hm => h (List.mem_cons_of_mem x hm))
    simp only [List.cons_append, splitOnSlash, if_neg hx]
    have ih2 : splitOnSlash (xs.append ('/' :: ys)) = xs :: splitOnSlash ys := ih
    rw [ih2]

/-- Every character of every part produced by the split occurs in the
input. -/
theorem mem_splitOnSlash_subset {cs : List Char} :
    ∀ {p : List Char}, p ∈ splitOnSlash cs → ∀ {c : Char}, c ∈ p → c ∈ cs := by
  induction cs with
  | nil =>
    intro p hp c hc
    simp [splitOnSlash] at hp
    subst hp
    cases hc
  | cons a as ih =>
    intro p hp c hc
    by_cases ha : a = '/'
    · subst ha
      rw [splitOnSlash_slash_cons] at hp
      rcases List.mem_cons.mp hp with h1 | h2
      · subst h1; cases hc
      · exact List.mem_cons_of_mem _ (ih h2 hc)
    · simp only [splitOnSlash, if_neg ha] at hp
      cases hsp : splitOnSlash as with
      | nil =>
        rw [hsp] at hp
        simp at hp
        subst hp
        rcases List.mem_cons.mp hc with hc1 | hc2
        · exact hc1 ▸ List.mem_cons_self a as
        · cases hc2
      | cons q qs =>
        rw [hsp] at hp
        simp only [] at hp
        rcases List.mem_cons.mp hp with h1 | h2
        · subst h1
          rcases List.mem_cons.mp hc with hc1 | hc2
          · exact hc1 ▸ List.mem_cons_self a as
          · exact List.mem_cons_of_mem _ (ih (hsp ▸ List.mem_cons_self q qs) hc2)
        · exact List.mem_cons_of_mem _ (ih (hsp ▸ List.mem_cons_of_mem q h2) hc)

/-- Every character of a parsed path name occurs in the path string. -/
theorem pyName_subset {cs : List Char} {c : Char} (hc : c ∈ pyName cs) : c ∈ cs := by
  unfold pyName at hc
  cases hg : (pyParts cs).getLast? with
  | none => rw [hg] at hc; cases hc
  | some p =>
    rw [hg] at hc
    have hp : p ∈ pyParts cs := List.mem_of_getLast?_eq_some hg
    have hp2 : p ∈ splitOnSlash cs := (List.mem_filter.mp hp).1
    exact mem_splitOnSlash_subset hp2 hc

/-- Dropping the non-dot prefix of a dot-free list consumes it entirely. -/
theorem dropWhile_ne_dot_eq_nil {l : List Char} (h : '.' ∉ l) :
    l.dropWhile (fun c => !(c = '.')) = [] := by
  induction l with
  | nil => rfl
  | cons a as ih =>
    have ha : ¬ a = '.' := fun hh => h (hh ▸ List.mem_cons_self a as)
    rw [List.dropWhile_cons_of_pos (by simp [ha])]
    exact ih (fun hm => h (List.mem_cons_of_mem a hm))

/-- A dot-free name has no suffix. -/
theorem pySuffixRev_no_dot {rev : List Char} (h : '.' ∉ rev) : pySuffixRev rev = [] := by
  unfold pySuffixRev
  rw [dropWhile_ne_dot_eq_nil h]

/-- A filename without any dot has an empty pathlib suffix. -/
theorem pathSuffix_no_dot {f : String} (h : f.data.contains '.' = false) :
    pathSuffix f = "" := by
  unfold pathSuffix
  have hnm : '.' ∉ pyName f.data := fun hm =>
    char_not_mem_of_contains_false h (pyName_subset hm)
  have hrev : '.' ∉ (pyName f.data).reverse := fun hm => hnm (List.mem_reverse.mp hm)
  rw [pySuffixRev_no_dot hrev]

/-- A slash-free filename ending in a dot has an empty pathlib suffix. -/
theorem pathSuffix_ends_dot {f : String} (hs : containsSlash f = false)
    (hd : strEndsWith f "." = true) : pathSuffix f = "" := by
  have hsl := slash_not_mem_of_containsSlash_false hs
  rw [strEndsWith] at hd
  have hsuf : (".").data <:+ f.data := List.isSuffixOf_iff_suffix.mp hd
  rcases hsuf with ⟨pre, hpre⟩
  unfold pathSuffix pyName pyParts
  rw [splitOnSlash_no_slash hsl]
  by_cases hdot : f.data = ['.']
  · rw [hdot]
    rfl
  · have hne : f.data ≠ [] := by
      intro h0
      rw [h0] at hpre
      simp at hpre
    have hkeep : keepPart f.data = true := by simp [keepPart, hne, hdot]
    rw [List.filter_cons_of_pos hkeep, List.filter_nil]
    show String.mk (pySuffixRev f.data.reverse) = ""
    rw [← hpre, List.reverse_append]
    show String.mk (pySuffixRev ('.' :: pre.reverse)) = ""
    unfold pySuffixRev
    rw [List.takeWhile_cons_of_neg (by simp), List.dropWhile_cons_of_neg (by simp)]
    rfl

/-- Splitting the joined download path yields the store components followed
by the slash-free filename. -/
theorem splitOnSlash_joined {filename : String} (h : '/' ∉ filename.data) :
    splitOnSlash (OUTPUT_DIR ++ "/" ++ filename).data =
      [[], "workspace".data, "outputs".data, filename.data] := by
  have hdata : (OUTPUT_DIR ++ "/" ++ filename).data =
      '/' :: ("workspace".data ++ '/' :: ("outputs".data ++ '/' :: filename.data)) := rfl
  rw [hdata, splitOnSlash_slash_cons,
    splitOnSlash_append_slash _ (by decide),
    splitOnSlash_append_slash _ (by decide),
    splitOnSlash_no_slash h]

/-- Resolving the joined download path of a slash-free filename that is
neither a lone dot nor a dot-dot keeps it directly under the store root. -/
theorem resolve_joined {filename : String} (hns : '/' ∉ filename.data)
    (h1 : filename.data ≠ []) (h2 : filename.data ≠ ['.'])
    (h3 : filename.data ≠ ['.', '.']) :
    resolvePath (OUTPUT_DIR ++ "/" ++ filename) =
      ["workspace".data, "outputs".data, filename.data] := by
  have hkeep : keepPart filename.data = true := by simp [keepPart, h1, h2]
  unfold resolvePath componentsOf
  rw [splitOnSlash_joined hns,
    List.filter_cons_of_neg (by decide),
    List.filter_cons_of_pos (by decide),
    List.filter_cons_of_pos (by decide),
    List.filter_cons_of_pos hkeep,
    List.filter_nil]
  unfold normalizeComponents
  simp only [List.foldl_cons, List.foldl_nil, resolveStep,
    if_neg (by decide : ¬ ("workspace".data = ['.', '.'])),
    if_neg (by decide : ¬ ("outputs".data = ['.', '.'])),
    if_neg h3]
  rfl

/-- C4: validate_file_type accepts exactly the filenames whose pathlib
extension, lowercased, is a member of the allowed set; being a plain
function of its two arguments it has no side effects. -/
theorem validate_file_type_iff (filename : String) (allowed : List String) :
    validate_file_type filename allowed = true ↔
      lowerString (pathSuffix filename) ∈ allowed := by
  simp [validate_file_type, List.contains_iff_exists_mem_beq]

/-- C4 witness: an uppercase image extension is accepted. -/
theorem validate_file_type_iff_witness :
    validate_file_type "photo.JPG" ALLOWED_IMAGE_EXTENSIONS = true :=
  (validate_file_type_iff "photo.JPG" ALLOWED_IMAGE_EXTENSIONS).mpr (by decide)

/-- C1 counterexample: requesting download of report.txt with the file
absent returns 404 (NotFound), not the 400 (InvalidType) that the claim
requires for every filename lacking the `.mp4` suffix, because the
existence check runs before the suffix check. -/
theorem download_wrong_suffix_missing_is_404 :
    download_file [] "report.txt" = DownloadResult.notFound ∧
      strEndsWith "report.txt" ".mp4" = false ∧
      DownloadResult.notFound ≠ DownloadResult.invalidType := by
  refine ⟨rfl, by decide, by decide⟩

/-- C1 (amended): the existence check precedes the suffix check — a joined
path that does not exist yields 404 regardless of suffix; an existing path
whose filename lacks the `.mp4` suffix yields 400; an existing `.mp4` is
served with media type video/mp4. -/
theorem download_file_spec (store : Store) (filename : String) :
    (joinedPathExists store filename = false →
        download_file store filename = DownloadResult.notFound) ∧
    (joinedPathExists store filename = true → strEndsWith filename ".mp4" = false →
        download_file store filename = DownloadResult.invalidType) ∧
    (joinedPathExists store filename = true → strEndsWith filename ".mp4" = true →
        download_file store filename =
          DownloadResult.file (ospath_join OUTPUT_DIR filename) "video/mp4" filename) := by
  refine ⟨fun h => ?_, fun h1 h2 => ?_, fun h1 h2 => ?_⟩
  · simp [download_file, h]
  · simp [download_file, h1, h2]
  · simp [download_file, h1, h2]

/-- C1 witness: the three amended branches at concrete inputs. -/
theorem download_file_spec_witness :
    download_file [⟨"x.mp4", 3, 5⟩] "x.mp4" =
        DownloadResult.file "/workspace/outputs/x.mp4" "video/mp4" "x.mp4" ∧
      download_file [⟨"report.txt", 3, 5⟩] "report.txt" = DownloadResult.invalidType ∧
      download_file [] "missing.mp4" = DownloadResult.notFound := by
  refine ⟨(download_file_spec [⟨"x.mp4", 3, 5⟩] "x.mp4").2.2 (by decide) (by decide),
    (download_file_spec [⟨"report.txt", 3, 5⟩] "report.txt").2.1 (by decide) (by decide),
    (download_file_spec [] "missing.mp4").1 (by decide)⟩

/-- C2: whatever the request inputs and however the environment behaves
(either upload save failing, the subprocess failing, or full success), the
Temporary Workspace no longer exists when the `/inference` handler
returns. -/
theorem inference_temp_dir_removed (imgName audioName : String) (w : World) :
    (inference imgName audioName w).tempDirExistsAfter = false := by
  unfold inference inferenceBody
  rcases w with ⟨o, i, a, d, sI, eI, sA, eA, ec, pe⟩
  by_cases hv1 : validate_file_type imgName ALLOWED_IMAGE_EXTENSIONS
  · by_cases hv2 : validate_file_type audioName ALLOWED_AUDIO_EXTENSIONS
    · simp only [hv1, hv2]
      cases sI
      · simp [rmtree]
      · cases sA
        · simp [rmtree]
        · by_cases hec : ec = 0 <;> simp [run_inference, rmtree, hec]
    · simp [hv1, hv2]
  · simp [hv1]

/-- C3: a missing Output Store directory yields an empty listing;
otherwise the listing is exactly the `*.mp4`-matching files of the store,
each carried with its filename, byte size, creation time and
`/download/<filename>` reference, arranged with creation times in
descending order. -/
theorem list_files_spec :
    list_files none = [] ∧
    ∀ store : Store,
      (list_files (some store)).Perm
          ((store.filter (fun f => globMatchMp4 f.name)).map mkEntry) ∧
        (list_files (some store)).Pairwise (fun a b => b.created ≤ a.created) := by
  refine ⟨rfl, fun store => ⟨?_, ?_⟩⟩
  · exact List.perm_insertionSort createdGE _
  · show List.Sorted createdGE (list_files (some store))
    exact List.sorted_insertionSort createdGE _

/-- C6: run_inference succeeds with the freshly generated
OUTPUT_DIR/<hex>.mp4 output path exactly when the external process exits
zero, fails with a 500 carrying the reported process error exactly when it
exits non-zero, and the generated path always carries the `.mp4` suffix
and sits directly under the Output Store directory (the drawn hex name
holds no separator). -/
theorem run_inference_spec (w : World) :
    (run_inference w = Except.ok (ospath_join OUTPUT_DIR (w.outHex ++ ".mp4")) ↔
        w.exitCode = 0) ∧
    (run_inference w = Except.error ⟨500, "Inference failed: " ++ w.procErr⟩ ↔
        w.exitCode ≠ 0) ∧
    strEndsWith (ospath_join OUTPUT_DIR (w.outHex ++ ".mp4")) ".mp4" = true ∧
    (containsSlash w.outHex = false →
      ospath_join OUTPUT_DIR (w.outHex ++ ".mp4") =
        OUTPUT_DIR ++ "/" ++ w.outHex ++ ".mp4") := by
  refine ⟨?_, ?_, ?_, ?_⟩
  · by_cases h : w.exitCode = 0 <;> simp [run_inference, h]
  · by_cases h : w.exitCode = 0 <;> simp [run_inference, h]
  · unfold ospath_join
    by_cases h1 : strStartsWith (w.outHex ++ ".mp4") "/" = true
    · simp [h1, strEndsWith_append_mp4]
    · have h2 : strEndsWith OUTPUT_DIR "/" = false := by decide
      simp only [h1, h2, if_neg, Bool.false_eq_true, if_false]
      rw [← String.append_assoc]
      exact strEndsWith_append_mp4 _
  · intro hns
    have h1 : strStartsWith (w.outHex ++ ".mp4") "/" = false :=
      strStartsWith_slash_false hns
    have h2 : strEndsWith OUTPUT_DIR "/" = false := by decide
    simp only [ospath_join, h1, h2, Bool.false_eq_true, if_false]
    simp [String.append_assoc]

/-- C6 witness: a zero exit status yields the joined output path, which
sits directly under the store root. -/
theorem run_inference_spec_witness :
    run_inference ⟨"abc", "i", "a", "d", true, "", true, "", 0, ""⟩ =
        Except.ok (ospath_join OUTPUT_DIR ("abc" ++ ".mp4")) ∧
      ospath_join OUTPUT_DIR ("abc" ++ ".mp4") = OUTPUT_DIR ++ "/" ++ "abc" ++ ".mp4" :=
  ⟨(run_inference_spec ⟨"abc", "i", "a", "d", true, "", true, "", 0, ""⟩).1.mpr rfl,
    (run_inference_spec ⟨"abc", "i", "a", "d", true, "", true, "", 0, ""⟩).2.2.2 (by decide)⟩

/-- C7: when the image filename fails image validation the response is a
400 naming the allowed image set, and when the image passes but the audio
fails audio validation the response is a 400 naming the allowed audio set;
in both cases no Temporary Workspace is created and the inference
subprocess is never invoked. -/
theorem inference_validation_gate (imgName audioName : String) (w : World) :
    (validate_file_type imgName ALLOWED_IMAGE_EXTENSIONS = false →
        inference imgName audioName w =
          ⟨.badRequest ("Invalid image format. Allowed: "
              ++ String.intercalate ", " ALLOWED_IMAGE_EXTENSIONS),
            false, false, false⟩) ∧
    (validate_file_type imgName ALLOWED_IMAGE_EXTENSIONS = true →
      validate_file_type audioName ALLOWED_AUDIO_EXTENSIONS = false →
        inference imgName audioName w =
          ⟨.badRequest ("Invalid audio format. Allowed: "
              ++ String.intercalate ", " ALLOWED_AUDIO_EXTENSIONS),
            false, false, false⟩) := by
  constructor
  · intro h
    simp [inference, h]
  · intro h1 h2
    simp [inference, h1, h2]

/-- C7 witness: a gif image with a valid wav audio is rejected with the
image 400 and no workspace or subprocess; a valid image with a txt audio
is rejected with the audio 400 likewise. -/
theorem inference_validation_gate_witness :
    inference "x.gif" "y.wav" ⟨"o", "i", "a", "d", true, "", true, "", 0, ""⟩ =
        ⟨.badRequest ("Invalid image format. Allowed: "
            ++ String.intercalate ", " ALLOWED_IMAGE_EXTENSIONS),
          false, false, false⟩ ∧
      inference "x.png" "y.txt" ⟨"o", "i", "a", "d", true, "", true, "", 0, ""⟩ =
        ⟨.badRequest ("Invalid audio format. Allowed: "
            ++ String.intercalate ", " ALLOWED_AUDIO_EXTENSIONS),
          false, false, false⟩ :=
  ⟨(inference_validation_gate "x.gif" "y.wav" ⟨"o", "i", "a", "d", true, "", true, "", 0, ""⟩).1
      (by decide),
    (inference_validation_gate "x.png" "y.txt" ⟨"o", "i", "a", "d", true, "", true, "", 0, ""⟩).2
      (by decide) (by decide)⟩

/-- C8: handler always returns an output-path or an error result (never
raises), and whenever the input mapping of the event is present but its
source_path or audio_path is missing or empty it returns exactly the fixed
missing-field error without invoking the subprocess. -/
theorem handler_total_and_missing_fields (e : Event) (w : World) :
    ((∃ p, (handler e w).1 = HandlerResult.output p) ∨
      (∃ m, (handler e w).1 = HandlerResult.error m)) ∧
    (∀ inp, e.inputField = some inp →
      (falsyStr inp.source_path || falsyStr inp.audio_path) = true →
        handler e w = (HandlerResult.error "Missing source_path or audio_path in input",
          false)) := by
  constructor
  · rcases e with ⟨_ | inp⟩
    · exact Or.inr ⟨"\x27input\x27", rfl⟩
    · by_cases h : (falsyStr inp.source_path || falsyStr inp.audio_path) = true
      · exact Or.inr ⟨"Missing source_path or audio_path in input", by simp [handler, h]⟩
      · rcases hr : run_inference w with ex | p
        · exact Or.inr ⟨toString ex.status ++ ": " ++ ex.detail, by simp [handler, h, hr]⟩
        · exact Or.inl ⟨p, by simp [handler, h, hr]⟩
  · intro inp hinp hfalsy
    rcases e with ⟨ei⟩
    cases hinp
    simp [handler, hfalsy]

/-- C8 witness: an event whose input mapping is empty yields exactly the
missing-field error and no subprocess call. -/
theorem handler_missing_fields_witness :
    handler ⟨some ⟨none, none⟩⟩ ⟨"o", "i", "a", "d", true, "", true, "", 0, ""⟩ =
      (HandlerResult.error "Missing source_path or audio_path in input", false) :=
  (handler_total_and_missing_fields ⟨some ⟨none, none⟩⟩
    ⟨"o", "i", "a", "d", true, "", true, "", 0, ""⟩).2 ⟨none, none⟩ rfl rfl

/-- C5: any file the download route serves resolves to a path strictly
under the Output Store root: with the route constraint that a path
parameter holds no separator, the resolved components of the served path
are the root components extended by the filename, so no traversal through
dot or dot-dot segments can reach outside the store. -/
theorem download_no_traversal (store : Store) (filename p mt fn : String)
    (hroute : containsSlash filename = false)
    (hserved : download_file store filename = DownloadResult.file p mt fn) :
    resolvePath p = outputRootComponents ++ [filename.data] ∧
      outputRootComponents <+: resolvePath p ∧
      resolvePath p ≠ outputRootComponents := by
  have hns := slash_not_mem_of_containsSlash_false hroute
  unfold download_file at hserved
  cases hex : joinedPathExists store filename with
  | false => rw [hex] at hserved; simp at hserved
  | true =>
    rw [hex] at hserved
    cases hend : strEndsWith filename ".mp4" with
    | false => rw [hend] at hserved; simp at hserved
    | true =>
      rw [hend] at hserved
      simp only [Bool.not_true, Bool.false_eq_true, if_false] at hserved
      have hp : p = ospath_join OUTPUT_DIR filename := by
        cases hserved
        rfl
      have hjoin : ospath_join OUTPUT_DIR filename = OUTPUT_DIR ++ "/" ++ filename := by
        unfold ospath_join
        rw [strStartsWith_slash_eq_false hns]
        rw [show strEndsWith OUTPUT_DIR "/" = false from by decide]
        simp
      rw [strEndsWith] at hend
      have hsuf : (".mp4").data <:+ filename.data := List.isSuffixOf_iff_suffix.mp hend
      rcases hsuf with ⟨pre, hpre⟩
      have hlen : filename.data.length = pre.length + 4 := by
        rw [← hpre]
        simp
      have h1 : filename.data ≠ [] := by
        intro h0
        rw [h0] at hlen
        simp at hlen
      have h2 : filename.data ≠ ['.'] := by
        intro h0
        rw [h0] at hlen
        simp at hlen
      have h3 : filename.data ≠ ['.', '.'] := by
        intro h0
        rw [h0] at hlen
        simp at hlen
      have hres : resolvePath p = ["workspace".data, "outputs".data, filename.data] := by
        rw [hp, hjoin]
        exact resolve_joined hns h1 h2 h3
      have hroot : outputRootComponents = ["workspace".data, "outputs".data] := by decide
      refine ⟨?_, ?_, ?_⟩
      · rw [hres, hroot]
        rfl
      · rw [hres, hroot]
        exact ⟨[filename.data], rfl⟩
      · rw [hres, hroot]
        intro hcontra
        have hlc := congrArg List.length hcontra
        simp at hlc

/-- C5 witness: the served path of an existing x.mp4 resolves to the root
components extended by that filename. -/
theorem download_no_traversal_witness :
    resolvePath "/workspace/outputs/x.mp4" =
        outputRootComponents ++ [("x.mp4" : String).data] ∧
      outputRootComponents <+: resolvePath "/workspace/outputs/x.mp4" ∧
      resolvePath "/workspace/outputs/x.mp4" ≠ outputRootComponents :=
  download_no_traversal [⟨"x.mp4", 3, 5⟩] "x.mp4" "/workspace/outputs/x.mp4"
    "video/mp4" "x.mp4" (by decide) (by decide)

/-- C9: with well-formed directory-entry names (no separator inside a
name), every entry of the `/files` listing is downloadable in an unchanged
store: its filename is separator-free, ends in `.mp4`, its download
reference is `/download/<filename>`, and the download route serves exactly
that file as video/mp4 instead of failing with 404 or 400. -/
theorem listed_entries_downloadable (store : Store)
    (hwf : ∀ f ∈ store, containsSlash f.name = false) :
    ∀ e ∈ list_files (some store),
      containsSlash e.filename = false ∧
        strEndsWith e.filename ".mp4" = true ∧
        e.download_url = "/download/" ++ e.filename ∧
        download_file store e.filename =
          DownloadResult.file (OUTPUT_DIR ++ "/" ++ e.filename) "video/mp4" e.filename := by
  intro e he
  unfold list_files at he
  rw [List.mem_insertionSort] at he
  rcases List.mem_map.mp he with ⟨f, hf, rfl⟩
  rcases List.mem_filter.mp hf with ⟨hfs, hmatch⟩
  have hnoslash : containsSlash f.name = false := hwf f hfs
  unfold globMatchMp4 at hmatch
  have hend : strEndsWith f.name ".mp4" = true := (Bool.and_eq_true_iff.mp hmatch).2
  have hex : joinedPathExists store f.name = true := by
    unfold joinedPathExists
    rw [List.any_eq_true]
    exact ⟨f, hfs, by simp⟩
  have hjoin : ospath_join OUTPUT_DIR f.name = OUTPUT_DIR ++ "/" ++ f.name := by
    unfold ospath_join
    rw [strStartsWith_slash_eq_false (slash_not_mem_of_containsSlash_false hnoslash)]
    rw [show strEndsWith OUTPUT_DIR "/" = false from by decide]
    simp
  refine ⟨hnoslash, hend, rfl, ?_⟩
  simp [download_file, mkEntry, hex, hend, hjoin]

/-- C9 witness: in a one-file store the single listing entry downloads as
that file. -/
theorem listed_entries_downloadable_witness :
    containsSlash (mkEntry ⟨"x.mp4", 3, 5⟩).filename = false ∧
      strEndsWith (mkEntry ⟨"x.mp4", 3, 5⟩).filename ".mp4" = true ∧
      (mkEntry ⟨"x.mp4", 3, 5⟩).download_url =
        "/download/" ++ (mkEntry ⟨"x.mp4", 3, 5⟩).filename ∧
      download_file [⟨"x.mp4", 3, 5⟩] (mkEntry ⟨"x.mp4", 3, 5⟩).filename =
        DownloadResult.file (OUTPUT_DIR ++ "/" ++ (mkEntry ⟨"x.mp4", 3, 5⟩).filename)
          "video/mp4" (mkEntry ⟨"x.mp4", 3, 5⟩).filename :=
  listed_entries_downloadable [⟨"x.mp4", 3, 5⟩] (by decide)
    (mkEntry ⟨"x.mp4", 3, 5⟩) (by decide)

/-- C10: validate_file_type rejects every filename whose pathlib suffix is
empty (the allowed sets contain no empty extension); the suffix is empty
for names containing no dot and for slash-free names ending in a dot; and
each name consisting of a leading dot plus an allowed extension (the
allowed extension strings themselves, such as the png or wav ones) has an
empty suffix and is rejected against both allowed sets despite textually
ending in an allowed extension. -/
theorem validate_empty_suffix_families :
    (∀ f : String, pathSuffix f = "" →
      validate_file_type f ALLOWED_IMAGE_EXTENSIONS = false ∧
        validate_file_type f ALLOWED_AUDIO_EXTENSIONS = false) ∧
    (∀ f : String, f.data.contains '.' = false → pathSuffix f = "") ∧
    (∀ f : String, containsSlash f = false → strEndsWith f "." = true →
      pathSuffix f = "") ∧
    (∀ e ∈ ALLOWED_IMAGE_EXTENSIONS ++ ALLOWED_AUDIO_EXTENSIONS,
      pathSuffix e = "" ∧ validate_file_type e ALLOWED_IMAGE_EXTENSIONS = false ∧
        validate_file_type e ALLOWED_AUDIO_EXTENSIONS = false) := by
  refine ⟨?_, ?_, ?_, ?_⟩
  · intro f h
    unfold validate_file_type
    rw [h]
    exact ⟨by decide, by decide⟩
  · exact fun f h => pathSuffix_no_dot h
  · exact fun f hs hd => pathSuffix_ends_dot hs hd
  · decide

/-- C10 witness: the hidden-file name consisting of a dot and png is
rejected for images, and a dotless name has an empty suffix. -/
theorem validate_empty_suffix_families_witness :
    validate_file_type ".png" ALLOWED_IMAGE_EXTENSIONS = false ∧
      pathSuffix "noext" = "" :=
  ⟨(validate_empty_suffix_families.1 ".png" (by decide)).1,
    validate_empty_suffix_families.2.1 "noext" (by decide)⟩

end Ditto
